import Mathlib

/-!
Verification of the streaming OpenAI client of
`src/PortDrivers/openai_io.c` (Raspberry-Pi-Pico-Altair-8800).

The byte-level data of the C program is modelled by `List Nat` (one `Nat`
per `char`/`uint8_t` value).  Fixed C buffers plus an explicit length
(`http_buf`/`http_len`, `chunk_buffer`/`chunk_index`, ...) are modelled by
the list of their first `len` bytes; the Pico SDK queues are modelled by
lists of messages together with the capacity checks of `queue_try_add` /
`queue_is_full` / `queue_get_level`.
-/

namespace OpenAIIO

/-- Buffer-size constants of `openai_io.c`. -/
def REQUEST_CHUNK_SIZE : Nat := 256
def RESPONSE_CHUNK_SIZE : Nat := 512
def HTTP_BUF_SIZE : Nat := 2048
def INBOUND_QUEUE_SIZE : Nat := 8
def OUTBOUND_QUEUE_SIZE : Nat := 2
def BODY_CHUNK_QUEUE_SIZE : Nat := 2

/-- Status values of `openai_io.c`. -/
def OAI_EOF : Nat := 0
def OAI_WAITING : Nat := 1
def OAI_DATA_READY : Nat := 2
def OAI_FAILED : Nat := 3
def OAI_BUSY : Nat := 4

/-- `tls_state_t` of `openai_io.c`, with the enumerator values of the C enum. -/
def TLS_STATE_IDLE : Nat := 0
def TLS_STATE_STREAMING_BODY : Nat := 5
def TLS_STATE_RECEIVING : Nat := 6
def TLS_STATE_DONE : Nat := 7
def TLS_STATE_ERROR : Nat := 8

/-- An `openai_response_t`: a byte buffer (first `len` bytes of `data`) and a
status tag.  The same C struct carries body chunks (command→network) and
response chunks (network→command). -/
structure OaiMsg where
  data : List Nat
  status : Nat
  deriving DecidableEq, Repr

/-- The zero-length end-of-stream marker queued by port 121 on the NUL byte
(`end_marker.len = 0`, `end_marker.status = OAI_EOF`). -/
def eosChunk : OaiMsg := ⟨[], OAI_EOF⟩

/-- `queue_try_add` on a queue of capacity `cap`: appends when there is room,
otherwise reports failure leaving the queue unchanged.  Used directly by
`queue_add_nonblocking` (openai_io.c:208). -/
def queue_try_add (cap : Nat) (q : List OaiMsg) (m : OaiMsg) : List OaiMsg × Bool :=
  if q.length < cap then (q ++ [m], true) else (q, false)

/-- `inbound_queue_has_space` (openai_io.c:223): keeps at least 2 slots free
for status messages; `available > chunks_needed + 2`. -/
def inbound_queue_has_space (chunks_needed : Nat) (q : List OaiMsg) : Bool :=
  chunks_needed + 2 < INBOUND_QUEUE_SIZE - q.length

/-- The C string a NUL-terminated buffer holds: everything before the first
NUL byte (what `strlen`/`strstr`/`strncmp` see). -/
def cstr (l : List Nat) : List Nat := l.takeWhile (fun b => b ≠ 0)

/-- The scan of `sse_pop_frame` (openai_io.c:294): index of the first `i`
with `buf[i] = buf[i+1] = '\n'` (LF = 10), if any. -/
def findLFLF : List Nat → Option Nat
  | a :: b :: t =>
    if a = 10 ∧ b = 10 then some 0 else (findLFLF (b :: t)).map (· + 1)
  | _ => none

/-- The second scan of `sse_pop_frame` (openai_io.c:307): index of the first
`i` with `buf[i..i+3] = "\r\n\r\n"` (CR = 13, LF = 10), if any. -/
def findCRLFCRLF : List Nat → Option Nat
  | a :: b :: c :: d :: t =>
    if a = 13 ∧ b = 10 ∧ c = 13 ∧ d = 10 then some 0
    else (findCRLFCRLF (b :: c :: d :: t)).map (· + 1)
  | _ => none

/-- `sse_pop_frame` (openai_io.c:284): pops the first complete SSE frame off
the decrypted buffer.  Scans the whole buffer for `\n\n` first; only when no
`\n\n` exists anywhere does it look for `\r\n\r\n`.  Returns the frame bytes
and the rest of the buffer after the consumed delimiter (the C code `memmove`s
the rest to the front), or `none` when no delimiter is found. -/
def sse_pop_frame (buf : List Nat) : Option (List Nat × List Nat) :=
  match findLFLF buf with
  | some i => some (buf.take i, buf.drop (i + 2))
  | none =>
    match findCRLFCRLF buf with
    | some i => some (buf.take i, buf.drop (i + 4))
    | none => none

-- Sanity checks of the embedding on concrete buffers.
example : sse_pop_frame [100, 10, 10, 99] = some ([100], [99]) := by decide
example : sse_pop_frame [100, 13, 10, 13, 10, 99] = some ([100], [99]) := by decide
example : sse_pop_frame [100, 13, 10] = none := by decide

/-!  Characterisation lemmas for the two delimiter scans. -/

theorem findLFLF_eq_some {l : List Nat} {i : Nat} (h : findLFLF l = some i) :
    l = l.take i ++ 10 :: 10 :: l.drop (i + 2) ∧ ¬ [10, 10] <:+: l.take i := by
  induction l generalizing i with
  | nil => simp [findLFLF] at h
  | cons a t ih =>
    match t with
    | [] => simp [findLFLF] at h
    | b :: t' =>
      by_cases hab : a = 10 ∧ b = 10
      · simp only [findLFLF] at h
        rw [if_pos hab] at h
        cases h
        simp [hab.1, hab.2]
      · simp only [findLFLF] at h
        rw [if_neg hab] at h
        cases hfb : findLFLF (b :: t') with
        | none => rw [hfb] at h; simp at h
        | some j =>
          rw [hfb] at h
          simp only [Option.map_some'] at h
          cases h
          obtain ⟨hdec, hmin⟩ := ih hfb
          constructor
          · show a :: b :: t' = (a :: b :: t').take (j + 1) ++ _
            rw [List.take_succ_cons, List.drop_succ_cons]
            exact congrArg (a :: ·) hdec
          · rw [List.take_succ_cons]
            intro hin
            rcases List.infix_cons_iff.mp hin with hp | hi
            · match j, hp with
              | 0, hp => exact absurd hp.length_le (by simp)
              | j' + 1, hp =>
                rw [List.take_succ_cons] at hp
                rcases hp with ⟨s, hs⟩
                cases hs
                exact hab ⟨rfl, rfl⟩
            · exact hmin hi

theorem infix_of_findLFLF_some {l : List Nat} {i : Nat}
    (h : findLFLF l = some i) : [10, 10] <:+: l := by
  obtain ⟨hdec, -⟩ := findLFLF_eq_some h
  exact ⟨l.take i, l.drop (i + 2), by rw [List.append_assoc]; exact hdec.symm⟩

theorem findLFLF_eq_none {l : List Nat} :
    findLFLF l = none ↔ ¬ [10, 10] <:+: l := by
  induction l with
  | nil => simp [findLFLF]
  | cons a t ih =>
    match t with
    | [] =>
      constructor
      · intro _ hin
        exact absurd hin.length_le (by simp)
      · intro _
        rfl
    | b :: t' =>
      by_cases hab : a = 10 ∧ b = 10
      · simp only [findLFLF]
        rw [if_pos hab]
        constructor
        · intro h; cases h
        · intro h
          exact absurd (List.infix_cons_iff.mpr
            (Or.inl ⟨t', by simp [hab.1, hab.2]⟩)) h
      · simp only [findLFLF]
        rw [if_neg hab, List.infix_cons_iff]
        cases hfb : findLFLF (b :: t') with
        | none =>
          simp only [Option.map_none']
          have ht : ¬ [10, 10] <:+: b :: t' := ih.mp hfb
          constructor
          · rintro - (hp | hi)
            · rcases hp with ⟨s, hs⟩
              cases hs
              exact hab ⟨rfl, rfl⟩
            · exact ht hi
          · intro _
            trivial
        | some j =>
          simp only [Option.map_some']
          constructor
          · intro h; cases h
          · intro hcon
            exact absurd (Or.inr (infix_of_findLFLF_some hfb)) hcon

theorem findCRLFCRLF_eq_some {l : List Nat} {i : Nat}
    (h : findCRLFCRLF l = some i) :
    l = l.take i ++ 13 :: 10 :: 13 :: 10 :: l.drop (i + 4) ∧
      ¬ [13, 10, 13, 10] <:+: l.take i := by
  induction l generalizing i with
  | nil => simp [findCRLFCRLF] at h
  | cons a t ih =>
    match t with
    | [] => simp [findCRLFCRLF] at h
    | [b] => simp [findCRLFCRLF] at h
    | [b, c] => simp [findCRLFCRLF] at h
    | b :: c :: d :: t' =>
      by_cases habcd : a = 13 ∧ b = 10 ∧ c = 13 ∧ d = 10
      · simp only [findCRLFCRLF] at h
        rw [if_pos habcd] at h
        cases h
        simp [habcd.1, habcd.2.1, habcd.2.2.1, habcd.2.2.2]
      · simp only [findCRLFCRLF] at h
        rw [if_neg habcd] at h
        cases hfb : findCRLFCRLF (b :: c :: d :: t') with
        | none => rw [hfb] at h; simp at h
        | some j =>
          rw [hfb] at h
          simp only [Option.map_some'] at h
          cases h
          obtain ⟨hdec, hmin⟩ := ih hfb
          constructor
          · show a :: b :: c :: d :: t' =
              (a :: b :: c :: d :: t').take (j + 1) ++ _
            rw [List.take_succ_cons, List.drop_succ_cons]
            exact congrArg (a :: ·) hdec
          · rw [List.take_succ_cons]
            intro hin
            rcases List.infix_cons_iff.mp hin with hp | hi
            · match j, hp with
              | 0, hp => exact absurd hp.length_le (by simp)
              | 1, hp => exact absurd hp.length_le (by simp)
              | 2, hp => exact absurd hp.length_le (by simp)
              | j' + 3, hp =>
                rw [List.take_succ_cons, List.take_succ_cons,
                  List.take_succ_cons] at hp
                rcases hp with ⟨s, hs⟩
                cases hs
                exact habcd ⟨rfl, rfl, rfl, rfl⟩
            · exact hmin hi

theorem sse_pop_frame_length {buf frame rest : List Nat}
    (h : sse_pop_frame buf = some (frame, rest)) : rest.length < buf.length := by
  unfold sse_pop_frame at h
  cases hlf : findLFLF buf with
  | some i =>
    rw [hlf] at h
    cases h
    have hdec := congrArg List.length (findLFLF_eq_some hlf).1
    simp only [List.length_append, List.length_cons] at hdec
    omega
  | none =>
    rw [hlf] at h
    cases hcr : findCRLFCRLF buf with
    | none => rw [hcr] at h; cases h
    | some i =>
      rw [hcr] at h
      cases h
      have hdec := congrArg List.length (findCRLFCRLF_eq_some hcr).1
      simp only [List.length_append, List.length_cons] at hdec
      omega

theorem cstr_eq_self {l : List Nat} (h : ∀ b ∈ l, b ≠ 0) : cstr l = l :=
  List.takeWhile_eq_self_iff.mpr (by intro b hb; simpa using h b hb)

/-- `strstr` with a fixed pattern `pat`: the suffix of the subject starting
right after the first occurrence of `pat`, or `none` when `pat` does not
occur.  (The callers in openai_io.c step the returned pointer past the
pattern at once, so the model returns the suffix after the match.) -/
def dropUntilSeq (pat : List Nat) : List Nat → Option (List Nat)
  | [] => if pat = [] then some [] else none
  | a :: t =>
    if pat.isPrefixOf (a :: t) then some ((a :: t).drop pat.length)
    else dropUntilSeq pat t

/-- The bytes of `"data:"`. -/
def dataPat : List Nat := [100, 97, 116, 97, 58]

/-- The bytes of `"[DONE]"`. -/
def donePat : List Nat := [91, 68, 79, 78, 69, 93]

/-- `extract_sse_data` (openai_io.c:351) on the C string of a frame: locate
the first `data:` field, skip spaces after the colon, flag a `[DONE]`
payload; returns (payload, is_done flag), with `none` when the frame has no
`data:` line or is `[DONE]`. -/
def extract_sse_data (f : List Nat) : Option (List Nat) × Bool :=
  match dropUntilSeq dataPat f with
  | none => (none, false)
  | some rest =>
    let payload := rest.dropWhile (fun b => b = 32)
    if donePat.isPrefixOf payload then (none, true) else (some payload, false)

/-- The trailing CR/LF trim of `queue_sse_frame` (openai_io.c:404). -/
def trimCRLF (l : List Nat) : List Nat :=
  (l.reverse.dropWhile (fun b => b = 13 ∨ b = 10)).reverse

/-- `queue_sse_frame` (openai_io.c:379): process one popped frame.  Returns
(`false` exactly on backpressure, stream-done flag, inbound queue). -/
def queue_sse_frame (frame : List Nat) (done : Bool) (q : List OaiMsg) :
    Bool × Bool × List OaiMsg :=
  match extract_sse_data (cstr frame) with
  | (_, true) => (true, true, q)
  | (none, false) => (true, done, q)
  | (some payload, false) =>
    if inbound_queue_has_space 1 q then
      let pl := trimCRLF payload
      if pl = [] then (true, done, q)
      else
        let cp := pl.take (RESPONSE_CHUNK_SIZE - 1)
        let (qa, ok) := queue_try_add INBOUND_QUEUE_SIZE q ⟨cp, OAI_DATA_READY⟩
        (ok, done, qa)
    else (false, done, q)

/-- The frame loop of `process_received_data` (openai_io.c:470-502) with an
explicit iteration bound: pop complete frames and queue them; on
backpressure re-prepend the popped frame (reconstructing an `\n\n`
delimiter, buffer space permitting) and stop; stop as soon as the
stream-done flag is set.  Every iteration removes at least two bytes from
the buffer, so a fuel of `buf.length` (as used by `prd_loop`) is never
exhausted (`prd_loop_fuel_irrel`). -/
def prd_loop_fuel : Nat → List Nat → Bool → List OaiMsg →
    List Nat × Bool × List OaiMsg
  | 0, buf, done, q => (buf, done, q)
  | fuel + 1, buf, done, q =>
    match sse_pop_frame buf with
    | none => (buf, done, q)
    | some (frame, rest) =>
      match queue_sse_frame frame done q with
      | (true, done', q') =>
        if done' then (rest, done', q') else prd_loop_fuel fuel rest done' q'
      | (false, done', q') =>
        if (cstr frame).length + 2 + rest.length < HTTP_BUF_SIZE then
          (cstr frame ++ 10 :: 10 :: rest, done', q')
        else (rest, done', q')

/-- The frame loop of `process_received_data`, at its never-exhausted bound. -/
def prd_loop (buf : List Nat) (done : Bool) (q : List OaiMsg) :
    List Nat × Bool × List OaiMsg :=
  prd_loop_fuel buf.length buf done q

theorem prd_loop_fuel_irrel : ∀ {f g : Nat} {buf : List Nat} {done : Bool}
    {q : List OaiMsg}, buf.length ≤ f → buf.length ≤ g →
    prd_loop_fuel f buf done q = prd_loop_fuel g buf done q := by
  intro f
  induction f with
  | zero =>
    intro g buf done q hf hg
    have : buf = [] := List.eq_nil_of_length_eq_zero (Nat.le_zero.mp hf)
    subst this
    cases g with
    | zero => rfl
    | succ g' => simp [prd_loop_fuel, sse_pop_frame, findLFLF, findCRLFCRLF]
  | succ f' ih =>
    intro g buf done q hf hg
    cases g with
    | zero =>
      have : buf = [] := List.eq_nil_of_length_eq_zero (Nat.le_zero.mp hg)
      subst this
      simp [prd_loop_fuel, sse_pop_frame, findLFLF, findCRLFCRLF]
    | succ g' =>
      simp only [prd_loop_fuel]
      cases hpop : sse_pop_frame buf with
      | none => rfl
      | some fr =>
        obtain ⟨frame, rest⟩ := fr
        have hlt := sse_pop_frame_length hpop
        dsimp only
        rcases hq : queue_sse_frame frame done q with ⟨ok, done', q'⟩
        cases ok with
        | false => rfl
        | true =>
          cases done' with
          | true => rfl
          | false =>
            simp only [Bool.false_eq_true, if_false]
            exact ih (by omega) (by omega)

/-- `process_received_data` (openai_io.c:433-512) once the HTTP headers are
complete: run the frame loop; on `flush` any remaining buffered bytes are
handed to `queue_sse_frame` as one final frame (return value ignored) and
the buffer is cleared.  Returns (buffer, stream-done flag, inbound queue). -/
def process_received_data (flush : Bool) (buf : List Nat) (done : Bool)
    (q : List OaiMsg) : List Nat × Bool × List OaiMsg :=
  let r := prd_loop buf done q
  if flush ∧ r.1 ≠ [] then
    let s := queue_sse_frame r.1 r.2.1 r.2.2
    ([], s.2.1, s.2.2)
  else r

-- Sanity checks: a plain data frame is queued; `[DONE]` only sets the flag.
example :
    prd_loop [100, 97, 116, 97, 58, 120, 10, 10] false [] =
      ([], false, [⟨[120], OAI_DATA_READY⟩]) := by decide
example :
    prd_loop [100, 97, 116, 97, 58, 32, 91, 68, 79, 78, 69, 93, 10, 10]
      false [] = ([], true, []) := by decide

/-- Modelled from the spec's words, for comparison with the code (claim C3):
the frame ends at the earliest blank line in the buffer, a blank line being
`\n\n` or `\r\n\r\n`, whichever of the two occurs earliest winning. -/
def sse_pop_frame_spec (buf : List Nat) : Option (List Nat × List Nat) :=
  match findLFLF buf, findCRLFCRLF buf with
  | some i, some j =>
    if j < i then some (buf.take j, buf.drop (j + 4))
    else some (buf.take i, buf.drop (i + 2))
  | some i, none => some (buf.take i, buf.drop (i + 2))
  | none, some j => some (buf.take j, buf.drop (j + 4))
  | none, none => none

/-- What `sse_pop_frame` actually extracts: a frame containing no `\n\n`,
delimited by the first `\n\n` of the buffer — or, only when the whole buffer
contains no `\n\n`, by its first `\r\n\r\n`. -/
theorem sse_pop_frame_decomp {buf frame rest : List Nat}
    (h : sse_pop_frame buf = some (frame, rest)) :
    ¬ [10, 10] <:+: frame ∧
      (buf = frame ++ [10, 10] ++ rest ∨
        (¬ [10, 10] <:+: buf ∧ ¬ [13, 10, 13, 10] <:+: frame ∧
          buf = frame ++ [13, 10, 13, 10] ++ rest)) := by
  unfold sse_pop_frame at h
  cases hlf : findLFLF buf with
  | some i =>
    rw [hlf] at h
    cases h
    obtain ⟨hdec, hmin⟩ := findLFLF_eq_some hlf
    exact ⟨hmin, Or.inl (by rw [List.append_assoc]; exact hdec)⟩
  | none =>
    rw [hlf] at h
    cases hcr : findCRLFCRLF buf with
    | none => rw [hcr] at h; cases h
    | some j =>
      rw [hcr] at h
      cases h
      obtain ⟨hdec, hmin⟩ := findCRLFCRLF_eq_some hcr
      have hnb : ¬ [10, 10] <:+: buf := findLFLF_eq_none.mp hlf
      refine ⟨fun hin => hnb (hin.trans (List.take_prefix j buf).isInfix),
        Or.inr ⟨hnb, hmin, by rw [List.append_assoc]; exact hdec⟩⟩

/-- An extracted frame re-prepended with an `\n\n` delimiter is re-extracted
exactly, provided it does not itself end in `\n`. -/
theorem findLFLF_append_delim {pre r : List Nat}
    (hni : ¬ [10, 10] <:+: pre) (hlast : pre.getLast? ≠ some 10) :
    findLFLF (pre ++ 10 :: 10 :: r) = some pre.length := by
  induction pre with
  | nil => simp [findLFLF]
  | cons a pre' ih =>
    cases pre' with
    | nil =>
      have ha : ¬ a = 10 := by simpa using hlast
      simp [findLFLF, ha]
    | cons b pre'' =>
      have hab : ¬ (a = 10 ∧ b = 10) := by
        rintro ⟨rfl, rfl⟩
        exact hni (List.infix_cons_iff.mpr (Or.inl ⟨pre'', rfl⟩))
      have hni' : ¬ [10, 10] <:+: b :: pre'' := fun hi =>
        hni (List.infix_cons_iff.mpr (Or.inr hi))
      have hlast' : (b :: pre'').getLast? ≠ some 10 := by
        rwa [List.getLast?_cons_cons] at hlast
      have hrec := ih hni' hlast'
      rw [List.cons_append] at hrec
      simp only [List.cons_append, findLFLF, List.append_eq]
      rw [if_neg hab, hrec]
      simp

theorem sse_pop_frame_append_delim {pre r : List Nat}
    (hni : ¬ [10, 10] <:+: pre) (hlast : pre.getLast? ≠ some 10) :
    sse_pop_frame (pre ++ 10 :: 10 :: r) = some (pre, r) := by
  unfold sse_pop_frame
  rw [findLFLF_append_delim hni hlast]
  dsimp only
  have ht : (pre ++ 10 :: 10 :: r).take pre.length = pre := by
    simp
  have hd : (pre ++ 10 :: 10 :: r).drop (pre.length + 2) = r := by
    rw [show pre ++ 10 :: 10 :: r = (pre ++ [10, 10]) ++ r by simp,
      show pre.length + 2 = (pre ++ [10, 10]).length by simp]
    exact List.drop_left _ _
  rw [ht, hd]

/-- C3 (amended).  For every buffer from which `sse_pop_frame` extracts a
frame: the frame contains no `\n\n` and ends at the first `\n\n` of the
buffer; only when the buffer contains no `\n\n` at all does the frame end at
the first `\r\n\r\n`.  (The claim's "whichever of the two occurs earliest in
the buffer wins" is false: an `\n\n` anywhere in the buffer beats an earlier
`\r\n\r\n`, see the counterexample.)  The frame plus the delimiter found is
removed from the front of the buffer. -/
theorem C3_sse_pop_frame_delimiter {buf frame rest : List Nat}
    (h : sse_pop_frame buf = some (frame, rest)) :
    ¬ [10, 10] <:+: frame ∧
      (buf = frame ++ [10, 10] ++ rest ∨
        (¬ [10, 10] <:+: buf ∧ ¬ [13, 10, 13, 10] <:+: frame ∧
          buf = frame ++ [13, 10, 13, 10] ++ rest)) :=
  sse_pop_frame_decomp h

theorem C3_sse_pop_frame_delimiter_witness :
    sse_pop_frame [100, 10, 10, 99] = some ([100], [99]) ∧
      (¬ [10, 10] <:+: [100] ∧
        ([100, 10, 10, 99] = [100] ++ [10, 10] ++ [99] ∨
          (¬ [10, 10] <:+: [100, 10, 10, 99] ∧
            ¬ [13, 10, 13, 10] <:+: [100] ∧
            [100, 10, 10, 99] = [100] ++ [13, 10, 13, 10] ++ [99]))) :=
  ⟨by decide, C3_sse_pop_frame_delimiter (by decide)⟩

/-- C3 counterexample: in the buffer `"a\r\n\r\nb\n\nc"` the earliest blank
line is the `\r\n\r\n` at index 1, so by the claim the extracted frame would
be `"a"`; the code scans for `\n\n` over the whole buffer first and extracts
`"a\r\n\r\nb"`, running past the earlier `\r\n\r\n` (which remains inside
the frame). -/
theorem C3_sse_pop_frame_counterexample :
    sse_pop_frame [97, 13, 10, 13, 10, 98, 10, 10, 99] =
      some ([97, 13, 10, 13, 10, 98], [99]) ∧
    sse_pop_frame_spec [97, 13, 10, 13, 10, 98, 10, 10, 99] =
      some ([97], [98, 10, 10, 99]) ∧
    [13, 10, 13, 10] <:+: [97, 13, 10, 13, 10, 98] := by decide

/-- C2 (amended).  When the inbound queue lacks capacity (free capacity
< 3), an extracted frame carrying a `data:` payload is re-prepended to the
front of the decrypted buffer with a reconstructed `\n\n` delimiter and the
frame loop stops for this poll cycle; a subsequent extraction (whatever the
queue capacity then is) yields the frame byte-identically — provided the
frame contains no NUL byte and does not itself end in `\n` (a frame ending
in `\n`, possible only with an `\r\n\r\n` delimiter, is re-extracted without
its trailing `\n`, and bytes past an interior NUL are dropped by the
`strlen`-based re-prepend: see the counterexample). -/
theorem C2_backpressure_requeue (buf frame rest payload : List Nat)
    (done : Bool) (q : List OaiMsg)
    (hpop : sse_pop_frame buf = some (frame, rest))
    (hbp : INBOUND_QUEUE_SIZE - q.length < 3)
    (hpay : extract_sse_data (cstr frame) = (some payload, false))
    (hcap : buf.length < HTTP_BUF_SIZE)
    (hnul : ∀ b ∈ frame, b ≠ 0)
    (hlast : frame.getLast? ≠ some 10) :
    prd_loop buf done q = (frame ++ 10 :: 10 :: rest, done, q) ∧
      sse_pop_frame (frame ++ 10 :: 10 :: rest) = some (frame, rest) := by
  have hcs : cstr frame = frame := cstr_eq_self hnul
  have hbp8 : 8 - q.length < 3 := by simpa [INBOUND_QUEUE_SIZE] using hbp
  have hsp : inbound_queue_has_space 1 q = false := by
    simp only [inbound_queue_has_space, INBOUND_QUEUE_SIZE,
      decide_eq_false_iff_not]
    omega
  have hqs : queue_sse_frame frame done q = (false, done, q) := by
    unfold queue_sse_frame
    rw [hpay]
    dsimp only
    rw [hsp]
    rfl
  obtain ⟨hniLF, hdec⟩ := sse_pop_frame_decomp hpop
  have hlen : frame.length + 2 + rest.length ≤ buf.length := by
    rcases hdec with h1 | ⟨-, -, h1⟩ <;>
      · have := congrArg List.length h1
        simp only [List.length_append, List.length_cons] at this
        simp only [this]
        omega
  have hcap2 : buf.length < 2048 := by simpa [HTTP_BUF_SIZE] using hcap
  refine ⟨?_, sse_pop_frame_append_delim hniLF hlast⟩
  obtain ⟨n, hn⟩ : ∃ n, buf.length = n + 1 :=
    ⟨buf.length - 1, by omega⟩
  unfold prd_loop
  rw [hn]
  simp only [prd_loop_fuel]
  rw [hpop]
  dsimp only
  rw [hqs]
  dsimp only
  rw [hcs]
  rw [if_pos (show frame.length + 2 + rest.length < HTTP_BUF_SIZE by
    simp only [HTTP_BUF_SIZE]; omega)]

theorem C2_backpressure_requeue_witness :
    sse_pop_frame [100, 97, 116, 97, 58, 121, 10, 10] =
      some ([100, 97, 116, 97, 58, 121], []) ∧
    INBOUND_QUEUE_SIZE - (List.replicate 6 (⟨[], OAI_WAITING⟩ : OaiMsg)).length < 3 ∧
    extract_sse_data (cstr [100, 97, 116, 97, 58, 121]) = (some [121], false) ∧
    [100, 97, 116, 97, 58, 121, 10, 10].length < HTTP_BUF_SIZE ∧
    (∀ b ∈ [100, 97, 116, 97, 58, 121], b ≠ 0) ∧
    [100, 97, 116, 97, 58, 121].getLast? ≠ some 10 ∧
    (prd_loop [100, 97, 116, 97, 58, 121, 10, 10] false
        (List.replicate 6 ⟨[], OAI_WAITING⟩) =
      ([100, 97, 116, 97, 58, 121] ++ 10 :: 10 :: [], false,
        List.replicate 6 ⟨[], OAI_WAITING⟩) ∧
      sse_pop_frame ([100, 97, 116, 97, 58, 121] ++ 10 :: 10 :: []) =
        some ([100, 97, 116, 97, 58, 121], [])) :=
  ⟨by decide, by decide, by decide, by decide, by decide, by decide,
    C2_backpressure_requeue [100, 97, 116, 97, 58, 121, 10, 10]
      [100, 97, 116, 97, 58, 121] [] [121] false
      (List.replicate 6 ⟨[], OAI_WAITING⟩) (by decide) (by decide) (by decide)
      (by decide) (by decide) (by decide)⟩

/-- C2 counterexample: the buffer `"data:x\n\r\n\r\n"` yields the frame
`"data:x\n"` (delimited by `\r\n\r\n`).  Under backpressure (6 of the 8
inbound slots used, free capacity 2 < 3) the frame is re-prepended with a
reconstructed `\n\n` delimiter, but its trailing `\n` then merges with the
reconstructed delimiter: the subsequent extraction returns `"data:x"`,
which is not byte-identical to the original frame — its final byte is
lost. -/
theorem C2_backpressure_counterexample :
    sse_pop_frame [100, 97, 116, 97, 58, 120, 10, 13, 10, 13, 10] =
      some ([100, 97, 116, 97, 58, 120, 10], []) ∧
    prd_loop [100, 97, 116, 97, 58, 120, 10, 13, 10, 13, 10] false
        (List.replicate 6 ⟨[], OAI_WAITING⟩) =
      ([100, 97, 116, 97, 58, 120, 10, 10, 10], false,
        List.replicate 6 ⟨[], OAI_WAITING⟩) ∧
    sse_pop_frame [100, 97, 116, 97, 58, 120, 10, 10, 10] =
      some ([100, 97, 116, 97, 58, 120], [10]) ∧
    [100, 97, 116, 97, 58, 120] ≠ [100, 97, 116, 97, 58, 120, 10] := by
  decide

/-- `send_status` (openai_io.c:266): enqueue one zero-length status message
through `queue_add_nonblocking`; a full inbound queue drops it. -/
def send_status (status : Nat) (q : List OaiMsg) : List OaiMsg :=
  (queue_try_add INBOUND_QUEUE_SIZE q ⟨[], status⟩).1

/-- The state touched by the terminal branches of `poll_tls_state_machine`:
the TLS state, the connection resources released by `tls_cleanup`
(openai_io.c:697: the TCP pcb, and the mbedtls contexts guarded by
`mbedtls_initialized`), and the inbound queue. -/
structure TermSt where
  state : Nat
  pcb_open : Bool
  mbedtls_initialized : Bool
  inbound : List OaiMsg
  deriving DecidableEq, Repr

/-- The `TLS_STATE_DONE` and `TLS_STATE_ERROR` branches of
`poll_tls_state_machine` (openai_io.c:1152-1173): send one terminal status
(EOF for DONE, FAILED for ERROR), run `tls_cleanup`, reset to IDLE. -/
def poll_terminal (s : TermSt) : TermSt :=
  if s.state = TLS_STATE_DONE then
    { state := TLS_STATE_IDLE, pcb_open := false, mbedtls_initialized := false,
      inbound := send_status OAI_EOF s.inbound }
  else if s.state = TLS_STATE_ERROR then
    { state := TLS_STATE_IDLE, pcb_open := false, mbedtls_initialized := false,
      inbound := send_status OAI_FAILED s.inbound }
  else s

/-- C6 (amended).  Every run of the state machine reaching DONE or ERROR
closes the transport, frees the TLS contexts, resets the state to IDLE, and
— provided the inbound queue is not full at that moment — enqueues exactly
one terminal status message: EOF for DONE, FAILED for ERROR.  (When the
inbound queue is full, `queue_add_nonblocking` drops the terminal message
and zero terminal messages are delivered: see the counterexample.) -/
theorem C6_terminal_exactly_once (s : TermSt)
    (hterm : s.state = TLS_STATE_DONE ∨ s.state = TLS_STATE_ERROR)
    (hroom : s.inbound.length < INBOUND_QUEUE_SIZE) :
    (poll_terminal s).state = TLS_STATE_IDLE ∧
    (poll_terminal s).pcb_open = false ∧
    (poll_terminal s).mbedtls_initialized = false ∧
    (poll_terminal s).inbound = s.inbound ++
      [⟨[], if s.state = TLS_STATE_DONE then OAI_EOF else OAI_FAILED⟩] := by
  have hq : ∀ st, send_status st s.inbound = s.inbound ++ [⟨[], st⟩] := by
    intro st
    unfold send_status queue_try_add
    rw [if_pos hroom]
  rcases hterm with hd | he
  · rw [poll_terminal, if_pos hd, if_pos hd]
    exact ⟨rfl, rfl, rfl, hq OAI_EOF⟩
  · have hne : s.state ≠ TLS_STATE_DONE := by
      rw [he]; simp [TLS_STATE_DONE, TLS_STATE_ERROR]
    rw [poll_terminal, if_neg hne, if_pos he, if_neg hne]
    exact ⟨rfl, rfl, rfl, hq OAI_FAILED⟩

theorem C6_terminal_exactly_once_witness :
    ((⟨TLS_STATE_DONE, true, true, [⟨[120], OAI_DATA_READY⟩]⟩ : TermSt).state =
        TLS_STATE_DONE ∨
      (⟨TLS_STATE_DONE, true, true, [⟨[120], OAI_DATA_READY⟩]⟩ : TermSt).state =
        TLS_STATE_ERROR) ∧
    (⟨TLS_STATE_DONE, true, true, [⟨[120], OAI_DATA_READY⟩]⟩ : TermSt).inbound.length <
      INBOUND_QUEUE_SIZE ∧
    ((poll_terminal ⟨TLS_STATE_DONE, true, true, [⟨[120], OAI_DATA_READY⟩]⟩).state =
        TLS_STATE_IDLE ∧
      (poll_terminal ⟨TLS_STATE_DONE, true, true, [⟨[120], OAI_DATA_READY⟩]⟩).pcb_open =
        false ∧
      (poll_terminal ⟨TLS_STATE_DONE, true, true, [⟨[120], OAI_DATA_READY⟩]⟩).mbedtls_initialized =
        false ∧
      (poll_terminal ⟨TLS_STATE_DONE, true, true, [⟨[120], OAI_DATA_READY⟩]⟩).inbound =
        [⟨[120], OAI_DATA_READY⟩] ++
          [⟨[], if (⟨TLS_STATE_DONE, true, true, [⟨[120], OAI_DATA_READY⟩]⟩ : TermSt).state =
              TLS_STATE_DONE then OAI_EOF else OAI_FAILED⟩]) :=
  ⟨Or.inl rfl, by decide,
    C6_terminal_exactly_once ⟨TLS_STATE_DONE, true, true, [⟨[120], OAI_DATA_READY⟩]⟩
      (Or.inl rfl) (by decide)⟩

/-- C6 counterexample: with the inbound queue full (8 of 8 slots used) a run
reaching DONE still resets to IDLE and frees the resources, but
`queue_add_nonblocking` drops the terminal EOF: the queue is unchanged and
zero terminal status messages are delivered, contradicting "no path reaching
a terminal state emits zero ... terminal status message". -/
theorem C6_terminal_counterexample :
    poll_terminal
        ⟨TLS_STATE_DONE, true, true, List.replicate 8 ⟨[], OAI_DATA_READY⟩⟩ =
      ⟨TLS_STATE_IDLE, false, false, List.replicate 8 ⟨[], OAI_DATA_READY⟩⟩ := by
  decide

/-- C9 (amended).  In the regular (non-flush) frame loop, once a frame whose
`data:` payload is `[DONE]` is extracted, the stream-completion flag is set,
that payload is not forwarded to the inbound queue, and the extractor
enqueues nothing further in that poll cycle (the bytes after the `[DONE]`
frame are left in the buffer and, as the RECEIVING state transitions to DONE
on the flag, are never re-processed); the terminal status then delivered by
the DONE state is EOF (inbound queue space permitting).  On a *forced flush*
(peer close or read error), however, trailing buffer content after the
`[DONE]` frame is still handed to the queue as one final frame, so the
claim's "enqueues no further data-ready chunks for the remainder of the
stream" fails on that path: see the counterexample. -/
theorem C9_done_frame_stops_stream (buf frame rest : List Nat)
    (q : List OaiMsg)
    (hpop : sse_pop_frame buf = some (frame, rest))
    (hdone : extract_sse_data (cstr frame) = (none, true))
    (hroom : q.length < INBOUND_QUEUE_SIZE) :
    process_received_data false buf false q = (rest, true, q) ∧
    ∀ p m : Bool,
      (poll_terminal ⟨TLS_STATE_DONE, p, m, q⟩).inbound = q ++ [⟨[], OAI_EOF⟩] := by
  constructor
  · have hqs : queue_sse_frame frame false q = (true, true, q) := by
      unfold queue_sse_frame
      rw [hdone]
    have hlt := sse_pop_frame_length hpop
    obtain ⟨n, hn⟩ : ∃ n, buf.length = n + 1 := ⟨buf.length - 1, by omega⟩
    unfold process_received_data prd_loop
    rw [hn]
    simp only [prd_loop_fuel]
    rw [hpop]
    dsimp only
    rw [hqs]
    simp
  · intro p m
    have hq : send_status OAI_EOF q = q ++ [⟨[], OAI_EOF⟩] := by
      unfold send_status queue_try_add
      rw [if_pos hroom]
    simp [poll_terminal, TLS_STATE_DONE, hq]

theorem C9_done_frame_stops_stream_witness :
    sse_pop_frame [100, 97, 116, 97, 58, 32, 91, 68, 79, 78, 69, 93, 10, 10, 120] =
      some ([100, 97, 116, 97, 58, 32, 91, 68, 79, 78, 69, 93], [120]) ∧
    extract_sse_data (cstr [100, 97, 116, 97, 58, 32, 91, 68, 79, 78, 69, 93]) =
      (none, true) ∧
    ([] : List OaiMsg).length < INBOUND_QUEUE_SIZE ∧
    (process_received_data false
        [100, 97, 116, 97, 58, 32, 91, 68, 79, 78, 69, 93, 10, 10, 120]
        false [] = ([120], true, []) ∧
      ∀ p m : Bool,
        (poll_terminal ⟨TLS_STATE_DONE, p, m, []⟩).inbound =
          [] ++ [⟨[], OAI_EOF⟩]) :=
  ⟨by decide, by decide, by decide,
    C9_done_frame_stops_stream
      [100, 97, 116, 97, 58, 32, 91, 68, 79, 78, 69, 93, 10, 10, 120]
      [100, 97, 116, 97, 58, 32, 91, 68, 79, 78, 69, 93] [120] []
      (by decide) (by decide) (by decide)⟩

/-- C9 counterexample: on a forced flush of the buffer
`"data: [DONE]\n\ndata: x"`, the `[DONE]` frame is extracted first and sets
the stream-completion flag — yet the flush then forwards the trailing
`"data: x"` as a data-ready chunk, so a data-ready chunk *is* enqueued after
`[DONE]` was extracted. -/
theorem C9_done_flush_counterexample :
    process_received_data true
        [100, 97, 116, 97, 58, 32, 91, 68, 79, 78, 69, 93, 10, 10,
          100, 97, 116, 97, 58, 32, 120] false [] =
      ([], true, [⟨[120], OAI_DATA_READY⟩]) := by decide

/-- The result of one `mbedtls_ssl_write` call as seen by its caller:
`accepted n` stands for a positive return value of `min (n + 1) requested`
bytes (a TLS write never accepts more than offered), `wouldBlock` for
`MBEDTLS_ERR_SSL_WANT_READ`/`WANT_WRITE`, and `fatal` for any other error. -/
inductive WriteRes where
  | accepted (n : Nat)
  | wouldBlock
  | fatal
  deriving DecidableEq, Repr

/-- The state used by the `TLS_STATE_STREAMING_BODY` branch of
`poll_tls_state_machine` (openai_io.c:943-1047).  `pending` is the unsent
slice `partial_chunk_buf[partial_chunk_offset ..< partial_chunk_len]`;
`sent` is the log of all bytes accepted by `mbedtls_ssl_write` so far (the
request body handed to the transport). -/
structure StreamSt where
  state : Nat
  pending : List Nat
  body_bytes_sent : Nat
  body_content_length : Nat
  bodyq : List OaiMsg
  sent : List Nat
  deriving DecidableEq, Repr

/-- The `queue_try_remove` half of the `TLS_STATE_STREAMING_BODY` branch
(openai_io.c:977-1044): dequeue one chunk; a zero-length EOF chunk moves to
RECEIVING; a data chunk is written (remainder kept in the partial buffer),
after which reaching the declared content length moves to RECEIVING and
drains the body-chunk queue. -/
def stream_dequeue_phase (o2 : WriteRes) (s : StreamSt) : StreamSt :=
  match s.bodyq with
  | [] => s
  | c :: q' =>
    if c.status = OAI_EOF ∧ c.data.length = 0 then
      { s with state := TLS_STATE_RECEIVING, bodyq := q' }
    else if 0 < c.data.length then
      match o2 with
      | .accepted n =>
        let w := min (n + 1) c.data.length
        let s' := { s with
          bodyq := q',
          body_bytes_sent := s.body_bytes_sent + w,
          sent := s.sent ++ c.data.take w,
          pending := c.data.drop w }
        if s'.body_content_length ≤ s'.body_bytes_sent then
          { s' with state := TLS_STATE_RECEIVING, bodyq := [] }
        else s'
      | .wouldBlock =>
        let s' := { s with bodyq := q', pending := c.data }
        if s'.body_content_length ≤ s'.body_bytes_sent then
          { s' with state := TLS_STATE_RECEIVING, bodyq := [] }
        else s'
      | .fatal => { s with state := TLS_STATE_ERROR, bodyq := q' }
    else { s with bodyq := q' }

/-- One poll of the `TLS_STATE_STREAMING_BODY` branch: first retry the
partial chunk (at most one TLS write, `o1`), then — only if the partial
buffer is empty — dequeue and write one new chunk (`o2`). -/
def pollStream (o1 o2 : WriteRes) (s : StreamSt) : StreamSt :=
  if s.state = TLS_STATE_STREAMING_BODY then
    if s.pending = [] then stream_dequeue_phase o2 s
    else
      match o1 with
      | .accepted n =>
        let w := min (n + 1) s.pending.length
        let s' := { s with
          pending := s.pending.drop w,
          body_bytes_sent := s.body_bytes_sent + w,
          sent := s.sent ++ s.pending.take w }
        if s'.pending = [] then stream_dequeue_phase o2 s' else s'
      | .wouldBlock => s
      | .fatal => { s with state := TLS_STATE_ERROR }
  else s

/-- A sequence of polls of the streaming-body branch, one pair of TLS write
results per poll. -/
def runStream (os : List (WriteRes × WriteRes)) (s : StreamSt) : StreamSt :=
  os.foldl (fun s o => pollStream o.1 o.2 s) s

/-- Concatenation of the chunk payloads of a queue. -/
def flatQ : List OaiMsg → List Nat
  | [] => []
  | c :: q => c.data ++ flatQ q

/-- The shape of the body-chunk queue produced by a completed port-121 body
write: some nonempty data-ready chunks followed by the single zero-length
end-of-stream chunk. -/
def QShape (q : List OaiMsg) : Prop :=
  ∃ ds, q = ds ++ [eosChunk] ∧ ∀ c ∈ ds, c.status = OAI_DATA_READY ∧ c.data ≠ []

-- A quick run: one chunk, a short write, a retry, then the EOS marker.
example :
    runStream [(.wouldBlock, .accepted 0), (.accepted 5, .wouldBlock),
        (.wouldBlock, .accepted 5)]
      ⟨TLS_STATE_STREAMING_BODY, [], 0, 9, [⟨[104, 105], OAI_DATA_READY⟩, eosChunk], []⟩ =
      ⟨TLS_STATE_RECEIVING, [], 2, 9, [], [104, 105]⟩ := by decide

theorem flatQ_append (q r : List OaiMsg) :
    flatQ (q ++ r) = flatQ q ++ flatQ r := by
  induction q with
  | nil => rfl
  | cons c q ih => simp [flatQ, ih]

theorem QShape_cons {c : OaiMsg} {q : List OaiMsg}
    (hs : c.status = OAI_DATA_READY) (hd : c.data ≠ []) (h : QShape q) :
    QShape (c :: q) := by
  obtain ⟨ds, rfl, hds⟩ := h
  refine ⟨c :: ds, rfl, ?_⟩
  intro x hx
  rcases List.mem_cons.mp hx with rfl | hx
  · exact ⟨hs, hd⟩
  · exact hds x hx

theorem append_eq_of_le {xs ys bs : List Nat} (h : xs ++ ys = bs)
    (hl : bs.length ≤ xs.length) : xs = bs ∧ ys = [] := by
  have hlen := congrArg List.length h
  simp only [List.length_append] at hlen
  have hy : ys = [] := List.eq_nil_of_length_eq_zero (by omega)
  subst hy
  exact ⟨by simpa using h, rfl⟩

/-- The invariant tying a streaming-body run to the request body `bs`: while
streaming, the bytes already handed to the transport, the partial-chunk
remainder and the still-queued chunk data concatenate to `bs`, the byte
counter counts the transport bytes, and the declared content length is
`bs.length`; once in RECEIVING, the transport holds exactly `bs`. -/
def StreamInv (bs : List Nat) (s : StreamSt) : Prop :=
  (s.state = TLS_STATE_STREAMING_BODY →
    s.body_content_length = bs.length ∧
    s.body_bytes_sent = s.sent.length ∧
    s.sent ++ (s.pending ++ flatQ s.bodyq) = bs ∧
    QShape s.bodyq) ∧
  (s.state = TLS_STATE_RECEIVING → s.sent = bs)

theorem stream_dequeue_inv {bs : List Nat} {s : StreamSt} (o2 : WriteRes)
    (hst : s.state = TLS_STATE_STREAMING_BODY) (hp : s.pending = [])
    (hinv : StreamInv bs s) : StreamInv bs (stream_dequeue_phase o2 s) := by
  obtain ⟨hCL, hbbs, hcat, ⟨ds, hq, hds⟩⟩ := hinv.1 hst
  rw [hp, List.nil_append] at hcat
  cases ds with
  | nil =>
    rw [List.nil_append] at hq
    have hsent : s.sent = bs := by
      rw [hq] at hcat
      simpa [flatQ, eosChunk] using hcat
    unfold stream_dequeue_phase
    rw [hq]
    dsimp only
    rw [if_pos (by exact ⟨rfl, rfl⟩)]
    unfold StreamInv
    constructor
    · intro h5
      simp [TLS_STATE_RECEIVING, TLS_STATE_STREAMING_BODY] at h5
    · intro _
      exact hsent
  | cons c ds' =>
    have hc := hds c (List.mem_cons_self c ds')
    have hnotEos : ¬ (c.status = OAI_EOF ∧ c.data.length = 0) := by
      rintro ⟨h1, -⟩
      rw [hc.1] at h1
      simp [OAI_DATA_READY, OAI_EOF] at h1
    have hlen : 0 < c.data.length := List.length_pos.mpr hc.2
    rw [List.cons_append] at hq
    have hshape' : QShape (ds' ++ [eosChunk]) :=
      ⟨ds', rfl, fun x hx => hds x (List.mem_cons_of_mem _ hx)⟩
    rw [hq] at hcat
    simp only [flatQ] at hcat
    unfold stream_dequeue_phase
    rw [hq]
    dsimp only
    rw [if_neg hnotEos, if_pos hlen]
    cases o2 with
    | accepted n =>
      have hw1 : 1 ≤ min (n + 1) c.data.length := le_min (by omega) hlen
      have hwle : min (n + 1) c.data.length ≤ c.data.length :=
        min_le_right _ _
      have htlen : (c.data.take (min (n + 1) c.data.length)).length =
          min (n + 1) c.data.length := by
        rw [List.length_take]
        omega
      have hsplit : (s.sent ++ c.data.take (min (n + 1) c.data.length)) ++
          (c.data.drop (min (n + 1) c.data.length) ++ flatQ (ds' ++ [eosChunk])) = bs := by
        rw [← hcat, List.append_assoc,
          ← List.append_assoc (c.data.take (min (n + 1) c.data.length)),
          List.take_append_drop]
      dsimp only
      by_cases hbc : s.body_content_length ≤
          s.body_bytes_sent + min (n + 1) c.data.length
      · rw [if_pos hbc]
        unfold StreamInv
        constructor
        · intro h5
          simp [TLS_STATE_RECEIVING, TLS_STATE_STREAMING_BODY] at h5
        · intro _
          dsimp only
          refine (append_eq_of_le hsplit ?_).1
          rw [List.length_append, htlen, ← hbbs, ← hCL]
          omega
      · rw [if_neg hbc]
        unfold StreamInv
        constructor
        · intro _
          refine ⟨hCL, ?_, ?_, hshape'⟩
          · dsimp only
            rw [List.length_append, htlen, hbbs]
          · exact hsplit
        · intro h6
          rw [hst] at h6
          simp [TLS_STATE_RECEIVING, TLS_STATE_STREAMING_BODY] at h6
    | wouldBlock =>
      have hlt : s.body_bytes_sent < bs.length := by
        have := congrArg List.length hcat
        simp only [List.length_append] at this
        omega
      rw [if_neg (by rw [hCL]; omega)]
      unfold StreamInv
      constructor
      · intro _
        exact ⟨hCL, hbbs, by simpa using hcat, hshape'⟩
      · intro h6
        rw [hst] at h6
        simp [TLS_STATE_RECEIVING, TLS_STATE_STREAMING_BODY] at h6
    | fatal =>
      unfold StreamInv
      constructor
      · intro h5
        simp [TLS_STATE_ERROR, TLS_STATE_STREAMING_BODY] at h5
      · intro h6
        simp [TLS_STATE_ERROR, TLS_STATE_RECEIVING] at h6

theorem pollStream_inv {bs : List Nat} {s : StreamSt} (o1 o2 : WriteRes)
    (hinv : StreamInv bs s) : StreamInv bs (pollStream o1 o2 s) := by
  unfold pollStream
  by_cases hst : s.state = TLS_STATE_STREAMING_BODY
  · rw [if_pos hst]
    by_cases hp : s.pending = []
    · rw [if_pos hp]
      exact stream_dequeue_inv o2 hst hp hinv
    · rw [if_neg hp]
      obtain ⟨hCL, hbbs, hcat, hshape⟩ := hinv.1 hst
      cases o1 with
      | wouldBlock => exact hinv
      | fatal =>
        unfold StreamInv
        constructor
        · intro h5
          simp [TLS_STATE_ERROR, TLS_STATE_STREAMING_BODY] at h5
        · intro h6
          simp [TLS_STATE_ERROR, TLS_STATE_RECEIVING] at h6
      | accepted n =>
        have hplen : 0 < s.pending.length :=
          List.length_pos.mpr hp
        have hwle : min (n + 1) s.pending.length ≤ s.pending.length :=
          min_le_right _ _
        have htlen : (s.pending.take (min (n + 1) s.pending.length)).length =
            min (n + 1) s.pending.length := by
          rw [List.length_take]
          omega
        have hinv' : StreamInv bs
            { s with
              pending := s.pending.drop (min (n + 1) s.pending.length),
              body_bytes_sent := s.body_bytes_sent + min (n + 1) s.pending.length,
              sent := s.sent ++ s.pending.take (min (n + 1) s.pending.length) } := by
          unfold StreamInv
          constructor
          · intro _
            refine ⟨hCL, ?_, ?_, hshape⟩
            · dsimp only
              rw [List.length_append, htlen, hbbs]
            · dsimp only
              rw [← hcat, List.append_assoc,
                ← List.append_assoc (s.pending.take (min (n + 1) s.pending.length)),
                List.take_append_drop]
          · intro h6
            rw [hst] at h6
            simp [TLS_STATE_RECEIVING, TLS_STATE_STREAMING_BODY] at h6
        dsimp only
        by_cases hp2 : s.pending.drop (min (n + 1) s.pending.length) = []
        · rw [if_pos hp2]
          exact stream_dequeue_inv o2 hst (by simpa using hp2) hinv'
        · rw [if_neg hp2]
          exact hinv'
  · rw [if_neg hst]
    exact hinv

theorem runStream_inv {bs : List Nat} (os : List (WriteRes × WriteRes))
    {s : StreamSt} (hinv : StreamInv bs s) : StreamInv bs (runStream os s) := by
  induction os generalizing s with
  | nil => exact hinv
  | cons o os ih =>
    simp only [runStream, List.foldl_cons] at *
    exact ih (pollStream_inv o.1 o.2 hinv)

/-- A staging buffer packed into a Body Chunk, with the `copy_len` clamp of
openai_io.c:1362/1388 (`chunk_index` if below `RESPONSE_CHUNK_SIZE`, else
`RESPONSE_CHUNK_SIZE - 1`). -/
def flush_chunk (buf : List Nat) : OaiMsg :=
  ⟨buf.take (if buf.length < RESPONSE_CHUNK_SIZE then buf.length
    else RESPONSE_CHUNK_SIZE - 1), OAI_DATA_READY⟩

/-- The `OAI_ADD_BYTE` (port 121) case of `openai_output`
(openai_io.c:1347-1418), under claim C1's precondition that every
`queue_try_add` on the body-chunk queue succeeds (on a failure the C handler
stops with status FAILED instead of enqueueing).  The state is the staging
buffer `chunk_buffer[0 ..< chunk_index]`; the result pairs the new staging
buffer with the Body Chunks enqueued by this call, in order.  A nonzero byte
is appended (when the staging buffer is not already at capacity) and a full
staging buffer is flushed; the NUL byte flushes the remainder and enqueues
the zero-length end-of-stream marker. -/
def oai_add_byte (d : Nat) (st : List Nat) : List Nat × List OaiMsg :=
  if d ≠ 0 then
    if st.length < REQUEST_CHUNK_SIZE - 1 then
      if REQUEST_CHUNK_SIZE - 1 ≤ st.length + 1 then ([], [flush_chunk (st ++ [d])])
      else (st ++ [d], [])
    else
      if REQUEST_CHUNK_SIZE - 1 ≤ st.length then ([], [flush_chunk st])
      else (st, [])
  else
    if 0 < st.length then ([], [flush_chunk st, eosChunk])
    else ([], [eosChunk])

/-- A sequence of port-121 writes: the final staging buffer and the
concatenated list of Body Chunks enqueued along the way. -/
def writeBytes : List Nat → List Nat → List Nat × List OaiMsg
  | [], st => (st, [])
  | d :: bs, st =>
    let r := oai_add_byte d st
    let r' := writeBytes bs r.1
    (r'.1, r.2 ++ r'.2)

example :
    writeBytes [104, 105, 0] [] =
      ([], [⟨[104, 105], OAI_DATA_READY⟩, eosChunk]) := by decide

theorem flush_chunk_small {buf : List Nat} (h : buf.length < RESPONSE_CHUNK_SIZE) :
    flush_chunk buf = ⟨buf, OAI_DATA_READY⟩ := by
  unfold flush_chunk
  rw [if_pos h, List.take_length]

theorem oai_add_byte_zero (st : List Nat)
    (hlen : st.length < RESPONSE_CHUNK_SIZE) :
    oai_add_byte 0 st =
      ([], (if 0 < st.length then [⟨st, OAI_DATA_READY⟩] else []) ++ [eosChunk]) := by
  unfold oai_add_byte
  rw [if_neg (by simp)]
  by_cases h : 0 < st.length
  · rw [if_pos h, if_pos h, flush_chunk_small hlen]
    rfl
  · rw [if_neg h, if_neg h]
    rfl

theorem oai_add_byte_pos (d : Nat) (hd : d ≠ 0) (st : List Nat)
    (hlen : st.length ≤ REQUEST_CHUNK_SIZE - 2) :
    oai_add_byte d st =
      if st.length = REQUEST_CHUNK_SIZE - 2 then
        ([], [⟨st ++ [d], OAI_DATA_READY⟩])
      else (st ++ [d], []) := by
  have hlen254 : st.length ≤ 254 := by
    simpa [REQUEST_CHUNK_SIZE] using hlen
  have hfc : (st ++ [d]).length < RESPONSE_CHUNK_SIZE := by
    simp only [List.length_append, List.length_cons, List.length_nil,
      RESPONSE_CHUNK_SIZE]
    omega
  unfold oai_add_byte
  rw [if_pos hd,
    if_pos (show st.length < REQUEST_CHUNK_SIZE - 1 by
      simp only [REQUEST_CHUNK_SIZE]; omega)]
  by_cases h : st.length = REQUEST_CHUNK_SIZE - 2
  · have h254 : st.length = 254 := by simpa [REQUEST_CHUNK_SIZE] using h
    rw [if_pos h,
      if_pos (show REQUEST_CHUNK_SIZE - 1 ≤ st.length + 1 by
        simp only [REQUEST_CHUNK_SIZE]; omega),
      flush_chunk_small hfc]
  · have h254 : st.length ≠ 254 := fun hc => h (by simp [REQUEST_CHUNK_SIZE, hc])
    rw [if_neg h,
      if_neg (show ¬ REQUEST_CHUNK_SIZE - 1 ≤ st.length + 1 by
        simp only [REQUEST_CHUNK_SIZE]; omega)]

theorem writeBytes_chunks (bs : List Nat) :
    ∀ st : List Nat, (∀ b ∈ bs, b ≠ 0) → st.length ≤ REQUEST_CHUNK_SIZE - 2 →
      QShape (writeBytes (bs ++ [0]) st).2 ∧
      flatQ (writeBytes (bs ++ [0]) st).2 = st ++ bs := by
  induction bs with
  | nil =>
    intro st h0 hlen
    have hlt : st.length < RESPONSE_CHUNK_SIZE := by
      simp only [REQUEST_CHUNK_SIZE] at hlen
      simp only [RESPONSE_CHUNK_SIZE]
      omega
    simp only [List.nil_append, writeBytes, oai_add_byte_zero st hlt]
    by_cases h : 0 < st.length
    · rw [if_pos h]
      refine ⟨⟨[⟨st, OAI_DATA_READY⟩], rfl, ?_⟩, by simp [flatQ, eosChunk]⟩
      intro c hc
      rw [List.mem_singleton] at hc
      subst hc
      exact ⟨rfl, by simpa using List.length_pos.mp h⟩
    · rw [if_neg h]
      have hnil : st = [] :=
        List.eq_nil_of_length_eq_zero (by omega)
      subst hnil
      exact ⟨⟨[], rfl, by simp⟩, by simp [flatQ, eosChunk]⟩
  | cons d bs' ih =>
    intro st h0 hlen
    have hd : d ≠ 0 := h0 d (List.mem_cons_self d bs')
    have h0' : ∀ b ∈ bs', b ≠ 0 := fun b hb => h0 b (List.mem_cons_of_mem d hb)
    simp only [List.cons_append, writeBytes, oai_add_byte_pos d hd st hlen]
    by_cases h : st.length = REQUEST_CHUNK_SIZE - 2
    · rw [if_pos h]
      obtain ⟨hsh, hfl⟩ := ih [] h0' (by simp)
      rw [List.nil_append] at hfl
      dsimp only
      refine ⟨QShape_cons rfl (by simp) hsh, ?_⟩
      simp only [List.append_eq, List.nil_append, List.singleton_append, flatQ]
      rw [hfl]
      simp
    · rw [if_neg h]
      obtain ⟨hsh, hfl⟩ := ih (st ++ [d]) h0' (by
        simp only [List.length_append, List.length_cons, List.length_nil]
        omega)
      dsimp only
      refine ⟨by simpa using hsh, ?_⟩
      simp only [List.append_eq, List.nil_append]
      rw [hfl]
      simp

/-- C1.  Writing a request body one byte at a time through port 121 (all
body bytes nonzero, then the terminating NUL), starting from an empty
staging buffer, enqueues exactly some nonempty data-ready Body Chunks
followed by one zero-length end-of-stream chunk, the chunk data
concatenating (in write order, NUL excluded) to exactly the bytes written
(`QShape`/`flatQ`); and for every sequence of TLS write results, a
streaming-body run over that queue with the matching declared content
length that reaches RECEIVING has handed to the transport exactly those
bytes.  The precondition that no `queue_try_add` on the body-chunk queue
fails is built into `oai_add_byte` (the C handler aborts instead of
enqueueing on a failed add). -/
theorem C1_body_bytes_roundtrip (bs : List Nat) (h0 : ∀ b ∈ bs, b ≠ 0) :
    QShape (writeBytes (bs ++ [0]) []).2 ∧
    flatQ (writeBytes (bs ++ [0]) []).2 = bs ∧
    ∀ os : List (WriteRes × WriteRes),
      (runStream os ⟨TLS_STATE_STREAMING_BODY, [], 0, bs.length,
          (writeBytes (bs ++ [0]) []).2, []⟩).state = TLS_STATE_RECEIVING →
        (runStream os ⟨TLS_STATE_STREAMING_BODY, [], 0, bs.length,
          (writeBytes (bs ++ [0]) []).2, []⟩).sent = bs := by
  obtain ⟨hsh, hfl⟩ := writeBytes_chunks bs [] h0 (by simp)
  rw [List.nil_append] at hfl
  refine ⟨hsh, hfl, ?_⟩
  intro os hrecv
  have hinv0 : StreamInv bs ⟨TLS_STATE_STREAMING_BODY, [], 0, bs.length,
      (writeBytes (bs ++ [0]) []).2, []⟩ := by
    unfold StreamInv
    constructor
    · intro _
      exact ⟨rfl, rfl, by simpa using hfl, hsh⟩
    · intro h6
      simp [TLS_STATE_STREAMING_BODY, TLS_STATE_RECEIVING] at h6
  exact (runStream_inv os hinv0).2 hrecv

theorem C1_body_bytes_roundtrip_witness :
    (∀ b ∈ [104, 105], b ≠ 0) ∧
    (QShape (writeBytes ([104, 105] ++ [0]) []).2 ∧
      flatQ (writeBytes ([104, 105] ++ [0]) []).2 = [104, 105] ∧
      ∀ os : List (WriteRes × WriteRes),
        (runStream os ⟨TLS_STATE_STREAMING_BODY, [], 0, [104, 105].length,
            (writeBytes ([104, 105] ++ [0]) []).2, []⟩).state = TLS_STATE_RECEIVING →
          (runStream os ⟨TLS_STATE_STREAMING_BODY, [], 0, [104, 105].length,
            (writeBytes ([104, 105] ++ [0]) []).2, []⟩).sent = [104, 105]) :=
  ⟨by decide, C1_body_bytes_roundtrip [104, 105] (by decide)⟩

theorem pollStream_pending_nil {s : StreamSt} (o1 o2 : WriteRes)
    (hst : s.state = TLS_STATE_STREAMING_BODY) (hp : s.pending = []) :
    pollStream o1 o2 s = stream_dequeue_phase o2 s := by
  unfold pollStream
  rw [if_pos hst, if_pos hp]

theorem dequeue_eos {s : StreamSt} {q' : List OaiMsg} (o2 : WriteRes)
    (hq : s.bodyq = eosChunk :: q') :
    stream_dequeue_phase o2 s =
      { s with state := TLS_STATE_RECEIVING, bodyq := q' } := by
  unfold stream_dequeue_phase
  rw [hq]
  dsimp only
  rw [if_pos ⟨rfl, rfl⟩]

theorem dequeue_bodyq_suffix (o2 : WriteRes) (s : StreamSt) :
    (stream_dequeue_phase o2 s).bodyq <:+ s.bodyq := by
  unfold stream_dequeue_phase
  cases hq : s.bodyq with
  | nil =>
    rw [hq]
  | cons c q' =>
    dsimp only
    by_cases h1 : c.status = OAI_EOF ∧ c.data.length = 0
    · rw [if_pos h1]
      exact List.suffix_cons c q'
    · rw [if_neg h1]
      by_cases h2 : 0 < c.data.length
      · rw [if_pos h2]
        cases o2 with
        | accepted n =>
          dsimp only
          by_cases h3 : s.body_content_length ≤
              s.body_bytes_sent + min (n + 1) c.data.length
          · rw [if_pos h3]
            exact List.nil_suffix
          · rw [if_neg h3]
            exact List.suffix_cons c q'
        | wouldBlock =>
          dsimp only
          by_cases h3 : s.body_content_length ≤ s.body_bytes_sent
          · rw [if_pos h3]
            exact List.nil_suffix
          · rw [if_neg h3]
            exact List.suffix_cons c q'
        | fatal => exact List.suffix_cons c q'
      · rw [if_neg h2]
        exact List.suffix_cons c q'

theorem dequeue_state_receiving {s : StreamSt} (o2 : WriteRes)
    (hst : s.state = TLS_STATE_STREAMING_BODY)
    (hrecv : (stream_dequeue_phase o2 s).state = TLS_STATE_RECEIVING) :
    (s.bodyq.head? = some eosChunk ∧
      (stream_dequeue_phase o2 s).bodyq = s.bodyq.tail) ∨
    ((stream_dequeue_phase o2 s).body_content_length ≤
        (stream_dequeue_phase o2 s).body_bytes_sent ∧
      (stream_dequeue_phase o2 s).bodyq = []) := by
  unfold stream_dequeue_phase at hrecv ⊢
  cases hq : s.bodyq with
  | nil =>
    rw [hq] at hrecv
    dsimp only at hrecv
    rw [hst] at hrecv
    exact absurd hrecv (by decide)
  | cons c q' =>
    rw [hq] at hrecv
    dsimp only at hrecv ⊢
    by_cases h1 : c.status = OAI_EOF ∧ c.data.length = 0
    · rw [if_pos h1] at hrecv ⊢
      left
      have hc : c = eosChunk := by
        obtain ⟨hs0, hl0⟩ := h1
        cases c with
        | mk data status =>
          have hdata : data = [] := List.eq_nil_of_length_eq_zero hl0
          subst hdata
          simp only [eosChunk]
          simpa using hs0
      rw [hc]
      exact ⟨rfl, rfl⟩
    · rw [if_neg h1] at hrecv ⊢
      by_cases h2 : 0 < c.data.length
      · rw [if_pos h2] at hrecv ⊢
        cases o2 with
        | accepted n =>
          dsimp only at hrecv ⊢
          by_cases h3 : s.body_content_length ≤
              s.body_bytes_sent + min (n + 1) c.data.length
          · rw [if_pos h3] at hrecv ⊢
            exact Or.inr ⟨h3, rfl⟩
          · rw [if_neg h3] at hrecv
            dsimp only at hrecv
            rw [hst] at hrecv
            exact absurd hrecv (by decide)
        | wouldBlock =>
          dsimp only at hrecv ⊢
          by_cases h3 : s.body_content_length ≤ s.body_bytes_sent
          · rw [if_pos h3] at hrecv ⊢
            exact Or.inr ⟨h3, rfl⟩
          · rw [if_neg h3] at hrecv
            dsimp only at hrecv
            rw [hst] at hrecv
            exact absurd hrecv (by decide)
        | fatal =>
          dsimp only at hrecv
          exact absurd hrecv (by decide)
      · rw [if_neg h2] at hrecv
        dsimp only at hrecv
        rw [hst] at hrecv
        exact absurd hrecv (by decide)

/-- C4 (amended).  In the STREAMING_BODY state: (i) dequeuing the explicit
zero-length end-of-stream chunk (with an empty partial buffer) transitions
to RECEIVING at once; (ii) every transition to RECEIVING in one poll happens
either by dequeuing that end-of-stream chunk or with bytes-sent having
reached the declared content length, and in the byte-count case every
remaining queue entry (including a late end-of-stream marker) is drained and
discarded; (iii) the queue is only ever consumed from the front, never
re-read; (iv) a freshly dequeued data chunk is consumed exactly once, its
unwritten remainder retried from the partial-chunk buffer.  However — and
this is where the claim's "whichever occurs first" fails — the byte-count
comparison is made only after writing a chunk freshly taken from the queue,
not after a partial-buffer retry, so when the count reaches the content
length during a partial-buffer flush the machine stays in STREAMING_BODY
and dequeues (and writes) further chunks first: see the counterexample. -/
theorem C4_streaming_body_transitions (s : StreamSt) (o1 o2 : WriteRes)
    (hst : s.state = TLS_STATE_STREAMING_BODY) :
    (∀ q', s.pending = [] → s.bodyq = eosChunk :: q' →
      pollStream o1 o2 s =
        { s with state := TLS_STATE_RECEIVING, bodyq := q' }) ∧
    ((pollStream o1 o2 s).state = TLS_STATE_RECEIVING →
      (s.bodyq.head? = some eosChunk ∧
        (pollStream o1 o2 s).bodyq = s.bodyq.tail) ∨
      ((pollStream o1 o2 s).body_content_length ≤
          (pollStream o1 o2 s).body_bytes_sent ∧
        (pollStream o1 o2 s).bodyq = [])) ∧
    ((pollStream o1 o2 s).bodyq <:+ s.bodyq) ∧
    (∀ c q' n, s.pending = [] → s.bodyq = c :: q' →
      c.status = OAI_DATA_READY → c.data ≠ [] → o2 = WriteRes.accepted n →
      (pollStream o1 o2 s).pending =
        c.data.drop (min (n + 1) c.data.length) ∧
      (pollStream o1 o2 s).sent =
        s.sent ++ c.data.take (min (n + 1) c.data.length) ∧
      ((pollStream o1 o2 s).bodyq = q' ∨ (pollStream o1 o2 s).bodyq = [])) := by
  refine ⟨?_, ?_, ?_, ?_⟩
  · intro q' hp hq
    rw [pollStream_pending_nil o1 o2 hst hp, dequeue_eos o2 hq]
  · by_cases hp : s.pending = []
    · intro hrecv
      rw [pollStream_pending_nil o1 o2 hst hp] at hrecv ⊢
      exact dequeue_state_receiving o2 hst hrecv
    · unfold pollStream
      rw [if_pos hst, if_neg hp]
      cases o1 with
      | wouldBlock =>
        intro hrecv
        rw [hst] at hrecv
        exact absurd hrecv (by decide)
      | fatal =>
        intro hrecv
        dsimp only at hrecv
        exact absurd hrecv (by decide)
      | accepted n =>
        dsimp only
        by_cases hp2 : s.pending.drop (min (n + 1) s.pending.length) = []
        · rw [if_pos hp2]
          intro hrecv
          exact dequeue_state_receiving o2
            (show ({ s with
              pending := s.pending.drop (min (n + 1) s.pending.length),
              body_bytes_sent :=
                s.body_bytes_sent + min (n + 1) s.pending.length,
              sent := s.sent ++ s.pending.take (min (n + 1) s.pending.length) } :
                StreamSt).state = TLS_STATE_STREAMING_BODY from hst) hrecv
        · rw [if_neg hp2]
          intro hrecv
          dsimp only at hrecv
          rw [hst] at hrecv
          exact absurd hrecv (by decide)
  · by_cases hp : s.pending = []
    · rw [pollStream_pending_nil o1 o2 hst hp]
      exact dequeue_bodyq_suffix o2 s
    · unfold pollStream
      rw [if_pos hst, if_neg hp]
      cases o1 with
      | wouldBlock => exact List.suffix_refl _
      | fatal => exact List.suffix_refl _
      | accepted n =>
        dsimp only
        by_cases hp2 : s.pending.drop (min (n + 1) s.pending.length) = []
        · rw [if_pos hp2]
          exact dequeue_bodyq_suffix o2 _
        · rw [if_neg hp2]
  · intro c q' n hp hq hcs hcd ho2
    subst ho2
    rw [pollStream_pending_nil o1 _ hst hp]
    have hnotEos : ¬ (c.status = OAI_EOF ∧ c.data.length = 0) := by
      rintro ⟨h0c, -⟩
      rw [hcs] at h0c
      exact absurd h0c (by decide)
    have hlen : 0 < c.data.length := List.length_pos.mpr hcd
    unfold stream_dequeue_phase
    rw [hq]
    dsimp only
    rw [if_neg hnotEos, if_pos hlen]
    by_cases h3 : s.body_content_length ≤
        s.body_bytes_sent + min (n + 1) c.data.length
    · rw [if_pos h3]
      exact ⟨rfl, rfl, Or.inr rfl⟩
    · rw [if_neg h3]
      exact ⟨rfl, rfl, Or.inl rfl⟩

/-- The concrete streaming-body state of the C4 witness: the queue holds
just the end-of-stream marker and two bytes are declared. -/
def c4_s0 : StreamSt := ⟨TLS_STATE_STREAMING_BODY, [], 0, 2, [eosChunk], []⟩

theorem C4_streaming_body_transitions_witness :
    c4_s0.state = TLS_STATE_STREAMING_BODY ∧
    ((∀ q', c4_s0.pending = [] → c4_s0.bodyq = eosChunk :: q' →
      pollStream .wouldBlock .wouldBlock c4_s0 =
        { c4_s0 with state := TLS_STATE_RECEIVING, bodyq := q' }) ∧
    ((pollStream .wouldBlock .wouldBlock c4_s0).state = TLS_STATE_RECEIVING →
      (c4_s0.bodyq.head? = some eosChunk ∧
        (pollStream .wouldBlock .wouldBlock c4_s0).bodyq = c4_s0.bodyq.tail) ∨
      ((pollStream .wouldBlock .wouldBlock c4_s0).body_content_length ≤
          (pollStream .wouldBlock .wouldBlock c4_s0).body_bytes_sent ∧
        (pollStream .wouldBlock .wouldBlock c4_s0).bodyq = [])) ∧
    ((pollStream .wouldBlock .wouldBlock c4_s0).bodyq <:+ c4_s0.bodyq) ∧
    (∀ c q' n, c4_s0.pending = [] → c4_s0.bodyq = c :: q' →
      c.status = OAI_DATA_READY → c.data ≠ [] →
      WriteRes.wouldBlock = WriteRes.accepted n →
      (pollStream .wouldBlock .wouldBlock c4_s0).pending =
        c.data.drop (min (n + 1) c.data.length) ∧
      (pollStream .wouldBlock .wouldBlock c4_s0).sent =
        c4_s0.sent ++ c.data.take (min (n + 1) c.data.length) ∧
      ((pollStream .wouldBlock .wouldBlock c4_s0).bodyq = q' ∨
        (pollStream .wouldBlock .wouldBlock c4_s0).bodyq = []))) :=
  ⟨rfl, C4_streaming_body_transitions c4_s0 .wouldBlock .wouldBlock rfl⟩

/-- C4 counterexample to "whichever occurs first": content length 2, queued
chunks `"ab"`, `"c"`, then the end-of-stream marker.  The first poll writes
only `'a'` (1 byte accepted), leaving `'b'` in the partial buffer.  The
second poll flushes `'b'` — at that instant bytes-sent (2) reaches the
declared content length, but no transition happens, because the byte-count
check does not run on the partial-buffer path; the same poll then dequeues
and writes the further chunk `"c"` before transitioning, so the transport
receives 3 bytes `"abc"` although the declared content length 2 had already
been reached. -/
theorem C4_byte_count_counterexample :
    runStream [(.wouldBlock, .accepted 0), (.accepted 0, .accepted 0)]
        ⟨TLS_STATE_STREAMING_BODY, [], 0, 2,
          [⟨[97, 98], OAI_DATA_READY⟩, ⟨[99], OAI_DATA_READY⟩, eosChunk], []⟩ =
      ⟨TLS_STATE_RECEIVING, [], 3, 2, [], [97, 98, 99]⟩ := by decide

/-- The Core-0 port state (`openai_port_state_t`, openai_io.c:175-195),
restricted to the fields the modelled handlers touch.  `response_buffer`
holds the valid bytes `response_buffer[0 ..< response_bytes_available]`, so
`response_bytes_available` is its length. -/
structure PortSt where
  content_length : Nat
  content_length_lo : Nat
  content_length_ready : Bool
  status : Nat
  request_pending : Bool
  response_buffer : List Nat
  response_position : Nat
  response_complete : Bool
  deriving DecidableEq, Repr

/-- An `openai_request_t` (openai_io.c:87-91). -/
structure OaiRequest where
  content_length : Nat
  abort : Bool
  deriving DecidableEq, Repr

/-- The `OAI_SET_LEN_LO` case (port 126) of `openai_output`
(openai_io.c:1436-1439). -/
def oai_set_len_lo (d : Nat) (p : PortSt) : PortSt :=
  { p with content_length_lo := d }

/-- The `OAI_SET_LEN_HI` case (port 127) of `openai_output`
(openai_io.c:1441-1455): assemble `lo | (d << 8)` (for byte values, the OR
is the sum `lo + 256 * d`), reject anything above 32768 by zeroing the
length and leaving `content_length_ready` false. -/
def oai_set_len_hi (d : Nat) (p : PortSt) : PortSt :=
  if 32768 < p.content_length_lo + 256 * d then
    { p with content_length := 0, content_length_ready := false }
  else
    { p with content_length := p.content_length_lo + 256 * d,
             content_length_ready := true }

/-- The `OAI_RESET_REQUEST` case of `openai_input` (port 120 read, the
request trigger, openai_io.c:1467-1495): enqueue a Request Descriptor only
when a content length is armed and positive; returns
(port value, port state, outbound queue). -/
def oai_input_trigger (p : PortSt) (outq : List OaiRequest) :
    Nat × PortSt × List OaiRequest :=
  if p.content_length_ready = true ∧ 0 < p.content_length then
    if outq.length < OUTBOUND_QUEUE_SIZE then
      (1, { p with request_pending := true, status := OAI_WAITING },
        outq ++ [⟨p.content_length, false⟩])
    else (0, p, outq)
  else (0, p, outq)

/-- Arbitrarily many consecutive trigger reads (state part only). -/
def triggerMany : Nat → PortSt × List OaiRequest → PortSt × List OaiRequest
  | 0, x => x
  | k + 1, (p, q) =>
    triggerMany k ((oai_input_trigger p q).2.1, (oai_input_trigger p q).2.2)

theorem trigger_not_ready {p : PortSt} (h : p.content_length_ready = false)
    (q : List OaiRequest) : oai_input_trigger p q = (0, p, q) := by
  unfold oai_input_trigger
  rw [if_neg (by rw [h]; simp)]

theorem triggerMany_not_ready {p : PortSt} (h : p.content_length_ready = false)
    (q : List OaiRequest) : ∀ k, triggerMany k (p, q) = (p, q) := by
  intro k
  induction k with
  | zero => rfl
  | succ k ih =>
    unfold triggerMany
    rw [trigger_not_ready h q]
    exact ih

/-- C5.  A pair of set-length-lo / set-length-hi writes assembling a 16-bit
value above 32768 is rejected locally at the hi-byte write: the stored
length is zeroed, `content_length_ready` stays false, every subsequent
trigger read returns 0 and never enqueues a Request Descriptor (the state
and outbound queue are left unchanged, by any number of trigger reads);
a value of at most 32768 arms `content_length_ready`. -/
theorem C5_content_length_validated (lo hi : Nat) (p : PortSt)
    (hlo : lo ≤ 255) (hhi : hi ≤ 255) :
    (32768 < lo + 256 * hi →
      (oai_set_len_hi hi (oai_set_len_lo lo p)).content_length = 0 ∧
      (oai_set_len_hi hi (oai_set_len_lo lo p)).content_length_ready = false ∧
      (∀ q : List OaiRequest,
        oai_input_trigger (oai_set_len_hi hi (oai_set_len_lo lo p)) q =
          (0, oai_set_len_hi hi (oai_set_len_lo lo p), q)) ∧
      (∀ q : List OaiRequest, ∀ k : Nat,
        triggerMany k (oai_set_len_hi hi (oai_set_len_lo lo p), q) =
          (oai_set_len_hi hi (oai_set_len_lo lo p), q))) ∧
    (lo + 256 * hi ≤ 32768 →
      (oai_set_len_hi hi (oai_set_len_lo lo p)).content_length_ready = true ∧
      (oai_set_len_hi hi (oai_set_len_lo lo p)).content_length = lo + 256 * hi) := by
  constructor
  · intro hbig
    have hcond : 32768 < (oai_set_len_lo lo p).content_length_lo + 256 * hi := by
      simpa [oai_set_len_lo] using hbig
    have hres : oai_set_len_hi hi (oai_set_len_lo lo p) =
        { oai_set_len_lo lo p with
          content_length := 0, content_length_ready := false } := by
      unfold oai_set_len_hi
      rw [if_pos hcond]
    rw [hres]
    refine ⟨rfl, rfl, ?_, ?_⟩
    · intro q
      exact trigger_not_ready rfl q
    · intro q k
      exact triggerMany_not_ready rfl q k
  · intro hsmall
    have hcond : ¬ 32768 < (oai_set_len_lo lo p).content_length_lo + 256 * hi := by
      simp only [oai_set_len_lo]
      omega
    have hres : oai_set_len_hi hi (oai_set_len_lo lo p) =
        { oai_set_len_lo lo p with
          content_length := (oai_set_len_lo lo p).content_length_lo + 256 * hi,
          content_length_ready := true } := by
      unfold oai_set_len_hi
      rw [if_neg hcond]
    rw [hres]
    exact ⟨rfl, rfl⟩

/-- An idle port state, as left by `openai_io_init` (openai_io.c:1297-1308:
everything zeroed, status `OAI_EOF`). -/
def initPort : PortSt := ⟨0, 0, false, OAI_EOF, false, [], 0, false⟩

theorem C5_content_length_validated_witness :
    64 ≤ 255 ∧ 156 ≤ 255 ∧
    ((32768 < 64 + 256 * 156 →
      (oai_set_len_hi 156 (oai_set_len_lo 64 initPort)).content_length = 0 ∧
      (oai_set_len_hi 156 (oai_set_len_lo 64 initPort)).content_length_ready = false ∧
      (∀ q : List OaiRequest,
        oai_input_trigger (oai_set_len_hi 156 (oai_set_len_lo 64 initPort)) q =
          (0, oai_set_len_hi 156 (oai_set_len_lo 64 initPort), q)) ∧
      (∀ q : List OaiRequest, ∀ k : Nat,
        triggerMany k (oai_set_len_hi 156 (oai_set_len_lo 64 initPort), q) =
          (oai_set_len_hi 156 (oai_set_len_lo 64 initPort), q))) ∧
    (64 + 256 * 156 ≤ 32768 →
      (oai_set_len_hi 156 (oai_set_len_lo 64 initPort)).content_length_ready = true ∧
      (oai_set_len_hi 156 (oai_set_len_lo 64 initPort)).content_length =
        64 + 256 * 156)) :=
  ⟨by decide, by decide,
    C5_content_length_validated 64 156 initPort (by decide) (by decide)⟩

/-- C10.  When the two length writes assemble exactly zero, the hi-byte
write still arms `content_length_ready` (0 passes the 32768 cap), but the
trigger read additionally requires a strictly positive content length: it
enqueues no Request Descriptor and returns 0, leaving state and queue
unchanged — a request can never start with content length zero. -/
theorem C10_zero_length_never_starts (lo hi : Nat) (p : PortSt)
    (q : List OaiRequest) (h0 : lo + 256 * hi = 0) :
    (oai_set_len_hi hi (oai_set_len_lo lo p)).content_length_ready = true ∧
    (oai_set_len_hi hi (oai_set_len_lo lo p)).content_length = 0 ∧
    oai_input_trigger (oai_set_len_hi hi (oai_set_len_lo lo p)) q =
      (0, oai_set_len_hi hi (oai_set_len_lo lo p), q) := by
  have hres : oai_set_len_hi hi (oai_set_len_lo lo p) =
      { oai_set_len_lo lo p with
        content_length := (oai_set_len_lo lo p).content_length_lo + 256 * hi,
        content_length_ready := true } := by
    unfold oai_set_len_hi
    rw [if_neg (by simp only [oai_set_len_lo]; omega)]
  rw [hres]
  have hcl : (oai_set_len_lo lo p).content_length_lo + 256 * hi = 0 := by
    simpa [oai_set_len_lo] using h0
  refine ⟨rfl, hcl, ?_⟩
  unfold oai_input_trigger
  rw [if_neg (by simp [hcl])]

theorem C10_zero_length_never_starts_witness :
    (0 + 256 * 0 = 0) ∧
    ((oai_set_len_hi 0 (oai_set_len_lo 0 initPort)).content_length_ready = true ∧
    (oai_set_len_hi 0 (oai_set_len_lo 0 initPort)).content_length = 0 ∧
    oai_input_trigger (oai_set_len_hi 0 (oai_set_len_lo 0 initPort)) [] =
      (0, oai_set_len_hi 0 (oai_set_len_lo 0 initPort), [])) :=
  ⟨by decide, C10_zero_length_never_starts 0 0 initPort [] (by decide)⟩

/-- The bytes of `"\"content\":\""`. -/
def contentPat : List Nat := [34, 99, 111, 110, 116, 101, 110, 116, 34, 58, 34]

/-- The bytes of `"\"finish_reason\":"`. -/
def finishPat : List Nat :=
  [34, 102, 105, 110, 105, 115, 104, 95, 114, 101, 97, 115, 111, 110, 34, 58]

/-- The content-scanning loop of `parse_sse_frame` (openai_io.c:1214-1232):
walk to the closing unescaped quote, skipping `\x` pairs, stopping at the
end of the C string or at the 1024-byte safety limit; returns the walked
length. -/
def scanContentLen (l : List Nat) (len : Nat) : Nat :=
  if len < 1024 then
    match l with
    | [] => len
    | 34 :: _ => len
    | 92 :: _ :: t => scanContentLen t (len + 2)
    | [92] => len + 1
    | _ :: t => scanContentLen t (len + 1)
  else len

/-- The in-place escape decoding of `parse_sse_frame` (openai_io.c:1246-1283):
`\n \r \t \" \\` decode; a backslash before any other byte is kept and the
next byte is processed normally; a trailing backslash is copied as is. -/
def unescape : List Nat → List Nat
  | 92 :: c :: t =>
    if c = 110 then 10 :: unescape t
    else if c = 114 then 13 :: unescape t
    else if c = 116 then 9 :: unescape t
    else if c = 34 then 34 :: unescape t
    else if c = 92 then 92 :: unescape t
    else 92 :: unescape (c :: t)
  | x :: t => x :: unescape t
  | [] => []

/-- The `"content":"` extraction half of `parse_sse_frame`
(openai_io.c:1206-1292). -/
def parse_content (f : List Nat) : Option (List Nat) :=
  match dropUntilSeq contentPat f with
  | none => none
  | some rest =>
    if scanContentLen rest 0 = 0 then none
    else some (unescape (rest.take (scanContentLen rest 0)))

/-- `parse_sse_frame` (openai_io.c:1183-1293) on the C string of a queued
JSON payload: report stream completion when a `"finish_reason":` value is
neither `null` nor starting in `n`; otherwise extract and unescape the
`"content":"` string.  Returns (token, is_done). -/
def parse_sse_frame (d : List Nat) : Option (List Nat) × Bool :=
  if cstr d = [] then (none, false)
  else
    match dropUntilSeq finishPat (cstr d) with
    | some rest =>
      if ¬ ([110, 117, 108, 108].isPrefixOf
            (rest.dropWhile (fun b => b = 32 ∨ b = 9))) ∧
          (rest.dropWhile (fun b => b = 32 ∨ b = 9)).head? ≠ some 110 then
        (none, true)
      else (parse_content (cstr d), false)
    | none => (parse_content (cstr d), false)

-- `{"choices":[{"delta":{"content":"Hi\n"},"finish_reason":null}]}` yields
-- the token `Hi\n`; a `"finish_reason":"stop"` payload reports completion.
example :
    parse_sse_frame ([123, 34, 99, 104, 111, 105, 99, 101, 115, 34, 58, 91] ++
      [123, 34, 100, 101, 108, 116, 97, 34, 58, 123] ++
      contentPat ++ [72, 105, 92, 110, 34, 125] ++
      [44] ++ finishPat ++ [110, 117, 108, 108, 125, 93, 125]) =
      (some [72, 105, 10], false) := by decide
example :
    parse_sse_frame (finishPat ++ [34, 115, 116, 111, 112, 34]) =
      (none, true) := by decide

/-- The dequeue-and-parse block of `OAI_GET_STATUS` (openai_io.c:1515-1560):
pull the next inbound message (if any) and load/flag the port state from
it. -/
def oai_status_advance (p : PortSt) (inq : List OaiMsg) :
    PortSt × List OaiMsg :=
  match inq with
  | [] => (p, inq)
  | r :: inq' =>
    if r.status = OAI_EOF ∨ r.status = OAI_FAILED then
      ({ p with response_complete := true, status := r.status }, inq')
    else if r.status = OAI_DATA_READY ∧ 0 < r.data.length then
      match parse_sse_frame r.data with
      | (_, true) =>
        ({ p with response_complete := true, status := OAI_EOF }, inq')
      | (some token, false) =>
        ({ p with
            response_buffer := token.take (RESPONSE_CHUNK_SIZE - 1),
            response_position := 0,
            status := OAI_DATA_READY }, inq')
      | (none, false) => ({ p with status := OAI_WAITING }, inq')
    else (p, inq')

/-- The return value computed at the end of `OAI_GET_STATUS`
(openai_io.c:1563-1569). -/
def status_ret (p : PortSt) : Nat :=
  if 0 < p.response_buffer.length ∧
      p.response_position < p.response_buffer.length then OAI_DATA_READY
  else if p.response_complete = true then OAI_EOF
  else OAI_WAITING

/-- The `OAI_GET_STATUS` case (port 123 read) of `openai_input`
(openai_io.c:1505-1571): report BUSY while the body-chunk queue is full;
otherwise, with no response byte pending, pull and parse the next inbound
message; then report DATA_READY / EOF / WAITING.  Returns
(port value, port state, inbound queue). -/
def oai_get_status (p : PortSt) (inq bodyq : List OaiMsg) :
    Nat × PortSt × List OaiMsg :=
  if BODY_CHUNK_QUEUE_SIZE ≤ bodyq.length then (OAI_BUSY, p, inq)
  else if p.response_buffer.length = 0 then
    (status_ret (oai_status_advance p inq).1,
      (oai_status_advance p inq).1, (oai_status_advance p inq).2)
  else (status_ret p, p, inq)

/-- The buffer-exhausted auto-advance of `OAI_GET_BYTE`
(openai_io.c:1580-1636): after handing out the last pending byte, pull and
parse the next inbound message (or fall back to WAITING). -/
def oai_get_byte_advance (p : PortSt) (inq : List OaiMsg) :
    PortSt × List OaiMsg :=
  match inq with
  | [] =>
    ({ p with
        response_buffer := [], response_position := 0,
        status := if p.status = OAI_DATA_READY ∧ p.response_complete = false
          then OAI_WAITING else p.status }, inq)
  | r :: inq' =>
    if r.status = OAI_EOF ∨ r.status = OAI_FAILED then
      ({ p with
          response_complete := true, status := r.status,
          response_buffer := [], response_position := 0 }, inq')
    else if r.status = OAI_DATA_READY ∧ 0 < r.data.length then
      match parse_sse_frame r.data with
      | (_, true) =>
        ({ p with
            response_complete := true, status := OAI_EOF,
            response_buffer := [], response_position := 0 }, inq')
      | (some token, false) =>
        ({ p with
            response_buffer := token.take (RESPONSE_CHUNK_SIZE - 1),
            response_position := 0, status := OAI_DATA_READY }, inq')
      | (none, false) =>
        ({ p with
            response_buffer := [], response_position := 0,
            status := OAI_WAITING }, inq')
    else (p, inq')

/-- The `OAI_GET_BYTE` case (port 124 read) of `openai_input`
(openai_io.c:1573-1639): hand out the pending byte and advance the cursor,
auto-advancing to the next queued Response Chunk once exhausted. -/
def oai_get_byte (p : PortSt) (inq : List OaiMsg) :
    Nat × PortSt × List OaiMsg :=
  if 0 < p.response_buffer.length ∧
      p.response_position < p.response_buffer.length then
    let ret := p.response_buffer.getD p.response_position 0
    let p1 := { p with response_position := p.response_position + 1 }
    if p1.response_buffer.length ≤ p1.response_position then
      (ret, (oai_get_byte_advance p1 inq).1, (oai_get_byte_advance p1 inq).2)
    else (ret, p1, inq)
  else (0, p, inq)

/-- C7.  With at least one loaded-but-unread response byte, a status read
consumes nothing: the response buffer, the read cursor and the
available-byte count are untouched, the read reports DATA_READY (or BUSY
when the outbound body-chunk queue is full), and the next get-byte read
still returns the very byte the cursor points at. -/
theorem C7_status_read_idempotent (p : PortSt) (inq bodyq : List OaiMsg)
    (h : p.response_position < p.response_buffer.length) :
    oai_get_status p inq bodyq =
      (if BODY_CHUNK_QUEUE_SIZE ≤ bodyq.length then OAI_BUSY else OAI_DATA_READY,
        p, inq) ∧
    (oai_get_byte p inq).1 = p.response_buffer.getD p.response_position 0 := by
  have hpos : 0 < p.response_buffer.length := Nat.lt_of_le_of_lt (Nat.zero_le _) h
  constructor
  · unfold oai_get_status
    by_cases hb : BODY_CHUNK_QUEUE_SIZE ≤ bodyq.length
    · rw [if_pos hb, if_pos hb]
    · rw [if_neg hb, if_neg hb]
      rw [if_neg (show ¬ p.response_buffer.length = 0 by omega)]
      unfold status_ret
      rw [if_pos ⟨hpos, h⟩]
  · unfold oai_get_byte
    rw [if_pos ⟨hpos, h⟩]
    by_cases he : p.response_buffer.length ≤ p.response_position + 1
    · rw [if_pos he]
    · rw [if_neg he]

theorem C7_status_read_idempotent_witness :
    (⟨0, 0, false, OAI_DATA_READY, false, [72, 73], 0, false⟩ :
        PortSt).response_position <
      (⟨0, 0, false, OAI_DATA_READY, false, [72, 73], 0, false⟩ :
        PortSt).response_buffer.length ∧
    (oai_get_status ⟨0, 0, false, OAI_DATA_READY, false, [72, 73], 0, false⟩
        [] [] =
      (if BODY_CHUNK_QUEUE_SIZE ≤ ([] : List OaiMsg).length then OAI_BUSY
        else OAI_DATA_READY,
        ⟨0, 0, false, OAI_DATA_READY, false, [72, 73], 0, false⟩, []) ∧
    (oai_get_byte ⟨0, 0, false, OAI_DATA_READY, false, [72, 73], 0, false⟩
        []).1 =
      (⟨0, 0, false, OAI_DATA_READY, false, [72, 73], 0, false⟩ :
        PortSt).response_buffer.getD 0 0) :=
  ⟨by decide,
    C7_status_read_idempotent ⟨0, 0, false, OAI_DATA_READY, false, [72, 73], 0, false⟩
      [] [] (by decide)⟩

/-- C8.  An event payload with no `"content":"` field and no non-null
`"finish_reason"` value makes the Token Parser yield no text and no error:
`parse_sse_frame` returns no token with the done flag clear, and the status
read that consumed such a payload reports WAITING (not FAILED), leaves the
completion flag clear, and lets the caller keep polling. -/
theorem C8_fieldless_event_keeps_waiting (d : List Nat) (p : PortSt)
    (inq bodyq : List OaiMsg)
    (hd : cstr d ≠ [])
    (hcf : dropUntilSeq contentPat (cstr d) = none)
    (hfr : ∀ rest, dropUntilSeq finishPat (cstr d) = some rest →
      ¬ (¬ ([110, 117, 108, 108].isPrefixOf
            (rest.dropWhile (fun b => b = 32 ∨ b = 9))) ∧
          (rest.dropWhile (fun b => b = 32 ∨ b = 9)).head? ≠ some 110))
    (hbuf : p.response_buffer.length = 0)
    (hcomp : p.response_complete = false)
    (hbody : bodyq.length < BODY_CHUNK_QUEUE_SIZE) :
    parse_sse_frame d = (none, false) ∧
    oai_get_status p (⟨d, OAI_DATA_READY⟩ :: inq) bodyq =
      (OAI_WAITING, { p with status := OAI_WAITING }, inq) := by
  have hdlen : 0 < d.length := by
    cases hdm : d with
    | nil => rw [hdm] at hd; exact absurd rfl hd
    | cons a t => simp
  have hpc : parse_content (cstr d) = none := by
    unfold parse_content
    rw [hcf]
  have hparse : parse_sse_frame d = (none, false) := by
    unfold parse_sse_frame
    rw [if_neg hd]
    cases hfin : dropUntilSeq finishPat (cstr d) with
    | none =>
      rw [hpc]
    | some rest =>
      dsimp only
      rw [if_neg (hfr rest hfin), hpc]
  refine ⟨hparse, ?_⟩
  have hadv : oai_status_advance p (⟨d, OAI_DATA_READY⟩ :: inq) =
      ({ p with status := OAI_WAITING }, inq) := by
    unfold oai_status_advance
    dsimp only
    rw [if_neg (by decide), if_pos ⟨rfl, hdlen⟩, hparse]
  unfold oai_get_status
  rw [if_neg (by omega), if_pos hbuf, hadv]
  unfold status_ret
  dsimp only
  rw [if_neg (by simp [hbuf]), if_neg (by simp [hcomp])]

theorem C8_fieldless_event_keeps_waiting_witness :
    cstr [123, 125] ≠ [] ∧
    dropUntilSeq contentPat (cstr [123, 125]) = none ∧
    (⟨0, 0, false, OAI_WAITING, false, [], 0, false⟩ :
      PortSt).response_buffer.length = 0 ∧
    (⟨0, 0, false, OAI_WAITING, false, [], 0, false⟩ :
      PortSt).response_complete = false ∧
    ([] : List OaiMsg).length < BODY_CHUNK_QUEUE_SIZE ∧
    (parse_sse_frame [123, 125] = (none, false) ∧
      oai_get_status ⟨0, 0, false, OAI_WAITING, false, [], 0, false⟩
          (⟨[123, 125], OAI_DATA_READY⟩ :: []) [] =
        (OAI_WAITING,
          { (⟨0, 0, false, OAI_WAITING, false, [], 0, false⟩ : PortSt) with
            status := OAI_WAITING }, [])) :=
  ⟨by decide, by decide, by decide, by decide, by decide,
    C8_fieldless_event_keeps_waiting [123, 125]
      ⟨0, 0, false, OAI_WAITING, false, [], 0, false⟩ [] []
      (by decide) (by decide)
      (fun rest h =>
        Option.noConfusion
          ((by decide :
            dropUntilSeq finishPat (cstr [123, 125]) = none).symm.trans h))
      (by decide) (by decide) (by decide)⟩

end OpenAIIO
